import Mathlib

/-!
Verification of the `baymag` prediction pipeline (`baymag/predict.py` and
`baymag/modelparams/core.py`) against its natural-language specification.

Numbers are modelled as rationals, numpy 2-d arrays as `List (List ℚ)`
(row-major), and Python exceptions as an explicit error type threaded
through `Except`.  The random draw `np.random.normal(mu, sigma)` is
modelled as `mu + sigma * z i j` for an explicit noise matrix `z`, and
`np.exp` as an explicit strictly-monotone function parameter `e`; neither
choice affects any statement below, which only quantify over them.
-/

deriving instance DecidableEq for Except

namespace Baymag

/-- Python exception values observable from the embedded code.  The first
three constructors (`assertionError`, `indexError`, `valueError`) are the
exceptions the source code can actually raise: the bare `assert` in
`get_draws`, numpy out-of-bounds indexing in `sw_correction`, and numpy
broadcast failures.  The last three constructors are the error classes the
specification names (`InvalidSpeciesError`, `CovariateShapeError`,
`AgeOutOfRangeError`); they are included so that the specification's
claims are statable, but no embedded function ever constructs them,
because no such class exists anywhere in the source. -/
inductive PyError where
  | assertionError (msg : String)
  | indexError (msg : String)
  | valueError (msg : String)
  | invalidSpeciesError (msg : String)
  | covariateShapeError (msg : String)
  | ageOutOfRangeError (msg : String)
deriving DecidableEq, Repr

/-- A numpy 2-d array of rationals, row-major. -/
abbrev Mat := List (List ℚ)

/-- Number of rows of a 2-d array. -/
def matRows (A : Mat) : ℕ := A.length

/-- Number of columns of a (rectangular) 2-d array. -/
def matCols (A : Mat) : ℕ := (A.headD []).length

/-- Entry `A[i, j]`, with 0 as the out-of-range default. -/
def ment (A : Mat) (i j : ℕ) : ℚ := (A.getD i []).getD j 0

/-- A 1-d array used as a row, i.e. with numpy shape `(1, len)`:
this is how a 1-d operand aligns against a 2-d one in broadcasting. -/
def rowOf (v : List ℚ) : Mat := [v]

/-- `v[:, np.newaxis]`: a 1-d array turned into a column, shape `(len, 1)`. -/
def colOf (v : List ℚ) : Mat := v.map (fun x => [x])

/-- numpy broadcast of two axis lengths: equal lengths broadcast to
themselves and a length-1 axis stretches to the other operand. -/
def bshape (a b : ℕ) : Option ℕ :=
  if a = b then some a else if a = 1 then some b else if b = 1 then some a else none

/-- The message of the `ValueError` numpy raises on a failed broadcast. -/
def bmsg : String := "operands could not be broadcast together"

/-- Build the `R × C` matrix with entry `g i j`. -/
def mkMat (R C : ℕ) (g : ℕ → ℕ → ℚ) : Mat :=
  (List.range R).map fun i => (List.range C).map fun j => g i j

/-- Read entry `(i, j)` of an operand of shape `(r, c)` under broadcasting
to a larger result shape: a length-1 axis always reads index 0. -/
def matGetB (A : Mat) (r c i j : ℕ) : ℚ :=
  (A.getD (if r = 1 then 0 else i) []).getD (if c = 1 then 0 else j) 0

/-- Elementwise numpy binary operation with broadcasting; a shape mismatch
raises `ValueError` exactly as numpy does. -/
def bop (f : ℚ → ℚ → ℚ) (A B : Mat) : Except PyError Mat :=
  match bshape (matRows A) (matRows B), bshape (matCols A) (matCols B) with
  | some R, some C =>
      .ok (mkMat R C fun i j =>
        f (matGetB A (matRows A) (matCols A) i j) (matGetB B (matRows B) (matCols B) i j))
  | _, _ => .error (.valueError bmsg)

/-- Elementwise numpy binary operation on two 1-d arrays with length
broadcasting (equal lengths, or a length-1 operand). -/
def vecBop (f : ℚ → ℚ → ℚ) (u v : List ℚ) : Except PyError (List ℚ) :=
  match bshape u.length v.length with
  | some L => .ok ((List.range L).map fun j =>
      f (u.getD (if u.length = 1 then 0 else j) 0) (v.getD (if v.length = 1 then 0 else j) 0))
  | none => .error (.valueError bmsg)

/-- Elementwise map over a 2-d array. -/
def emap (f : ℚ → ℚ) (A : Mat) : Mat := A.map (List.map f)

/-- `np.tile(A, reps)` for a 2-d `A` and a scalar `reps`: each row is
repeated `reps` times along the last axis. -/
def tile2 (A : Mat) (reps : ℕ) : Mat :=
  A.map fun row => (List.range (row.length * reps)).map fun j => row.getD (j % row.length) 0

/-- `np.transpose` of a rectangular 2-d array. -/
def transpose2 (A : Mat) : Mat :=
  (List.range (matCols A)).map fun j => A.map fun row => row.getD j 0

/-- A numpy array that is either 1-d or 2-d.  The distinction matters for
`alpha` and `sigma`: the pooled stores slice them with `[:, None]`, giving
an `(m, 1)` column, while the hierarchical store slices with an integer
index, giving a 1-d `(m,)` array - and `np.tile` and `np.transpose`
behave differently on the two. -/
inductive NdArr where
  | one (v : List ℚ)
  | two (A : Mat)
deriving DecidableEq, Repr

/-- `np.tile(v, reps)` for a 1-d array: the flat `(len * reps,)` array
repeating `v`. -/
def npTile1 (v : List ℚ) (reps : ℕ) : List ℚ :=
  (List.range (v.length * reps)).map fun j => v.getD (j % v.length) 0

/-- `np.tile(a, reps)` on a 1-d or 2-d array: a 1-d array tiles to a flat
1-d array, a 2-d array tiles along its last axis. -/
def npTile (a : NdArr) (reps : ℕ) : NdArr :=
  match a with
  | .one v => .one (npTile1 v reps)
  | .two A => .two (tile2 A reps)

/-- `np.transpose` on a 1-d or 2-d array: a no-op on 1-d arrays. -/
def npTranspose (a : NdArr) : NdArr :=
  match a with
  | .one v => .one v
  | .two A => .two (transpose2 A)

/-- The first broadcast axis length of a 1-d or 2-d array: a 1-d `(k,)`
operand aligns as `(1, k)` against a 2-d one. -/
def ndRows : NdArr → ℕ
  | .one _ => 1
  | .two A => matRows A

/-- The number of per-draw entries of an `alpha`/`sigma` slice: the length
of a 1-d slice, the row count of a 2-d column. -/
def ndLen : NdArr → ℕ
  | .one v => v.length
  | .two A => A.length

/-- numpy binary operation between a 1-d-or-2-d left operand and a 2-d
right operand: the 1-d `(k,)` case broadcasts exactly like `(1, k)`. -/
def bopN (f : ℚ → ℚ → ℚ) (a : NdArr) (B : Mat) : Except PyError Mat :=
  match a with
  | .one v => bop f (rowOf v) B
  | .two A => bop f A B

/-- The tuple of MCMC parameter draws returned by `get_draws`.  `alpha`
and `sigma` keep the dimensionality the store slicing produced (`(m, 1)`
column for the pooled models, 1-d `(m,)` for the hierarchical species);
the slope vectors are always 1-d. -/
structure Draws where
  alpha : NdArr
  beta_temp : List ℚ
  beta_salinity : List ℚ
  beta_omega : List ℚ
  beta_ph : List ℚ
  beta_clean : List ℚ
  sigma : NdArr
deriving DecidableEq, Repr

/-- An MCMC prediction: the `Prediction` / `MgCaPrediction` class of
`baymag/predict.py`, an `n × m` ensemble tagged with the species string. -/
structure Prediction where
  ensemble : Mat
  spp : String
deriving DecidableEq, Repr

/-- Modelled from the spec: a pooled-calibration parameter store
(`pooled_model_params.mat` / `pooled_sea_model_params.mat`), whose actual
contents are bundled resource files outside the repository source.  Per the
spec's data model each field is a per-draw vector. -/
structure PooledStore where
  alpha : List ℚ
  betaT : List ℚ
  betaS : List ℚ
  betaO : List ℚ
  betaP : List ℚ
  betaC : List ℚ
  sigma : List ℚ
deriving DecidableEq, Repr

/-- Modelled from the spec: the hierarchical species parameter store
(`species_model_params.mat`), also an external resource file.  `alpha` and
`sigma` are draw-by-species tables that `get_draws` slices to one species
column; the slope vectors are shared across species. -/
structure SppStore where
  alpha : Mat
  betaT : List ℚ
  betaS : List ℚ
  betaO : List ℚ
  betaP : List ℚ
  betaC : List ℚ
  sigma : Mat
deriving DecidableEq, Repr

/-- The legacy-alias table `foram_map` of `get_draws`: `dict.get` with the
input itself as the default. -/
def foramMap (s : String) : String :=
  if s = "G. bulloides" then "bulloides"
  else if s = "N. pachyderma sinistral" then "pachy"
  else if s = "N. incompta" then "pachy"
  else if s = "G. ruber pink" then "ruber"
  else if s = "G. ruber white" then "ruber"
  else if s = "G. ruber" then "ruber"
  else if s = "G. sacculifer" then "sacculifer"
  else s

/-- The keys of `draws_map`, in insertion order. -/
def drawsMapKeys : List String :=
  ["all", "all_sea", "ruber", "bulloides", "sacculifer", "pachy"]

/-- The Python repr of `list(draws_map.keys())` interpolated into the
assertion message. -/
def keysRepr : String :=
  "[\x27all\x27, \x27all_sea\x27, \x27ruber\x27, \x27bulloides\x27, \x27sacculifer\x27, \x27pachy\x27]"

/-- The f-string message of the failed `assert` in `get_draws`. -/
def invalidSpeciesMsg (speciesOld : String) : String :=
  "\x22" ++ speciesOld ++ "\x22 must be one of draws_map " ++ keysRepr

/-- The draw tuple assembled from a pooled store (`idx = None`, i.e.
`np.newaxis`: `alpha[:, None]` and `sigma[:, None]` add an axis, turning
the stored 1-d `(m,)` vectors into `(m, 1)` columns). -/
def pooledDraws (P : PooledStore) : Draws :=
  ⟨.two (colOf P.alpha), P.betaT, P.betaS, P.betaO, P.betaP, P.betaC, .two (colOf P.sigma)⟩

/-- `table[:, idx]` for an integer `idx`: one species column of a
draw-by-species table, as a 1-d `(m,)` array. -/
def colSlice (A : Mat) (idx : ℕ) : List ℚ := A.map fun row => row.getD idx 0

/-- The draw tuple assembled from the hierarchical store at species
column `idx`; the integer slice leaves `alpha` and `sigma` 1-d. -/
def sppDraws (S : SppStore) (idx : ℕ) : Draws :=
  ⟨.one (colSlice S.alpha idx), S.betaT, S.betaS, S.betaO, S.betaP, S.betaC,
    .one (colSlice S.sigma idx)⟩

/-- `get_draws` of `baymag/modelparams/core.py`: normalize legacy aliases
through `foram_map`, then dispatch on the canonical identifier; an
unrecognized identifier fails the `assert`, i.e. raises `AssertionError`
with the f-string message naming the original token and the key list. -/
def get_draws (P Psea : PooledStore) (S : SppStore) (species : String) :
    Except PyError Draws :=
  let speciesOld := species
  let sp := foramMap species
  if sp = "all" then .ok (pooledDraws P)
  else if sp = "all_sea" then .ok (pooledDraws Psea)
  else if sp = "ruber" then .ok (sppDraws S 0)
  else if sp = "bulloides" then .ok (sppDraws S 1)
  else if sp = "sacculifer" then .ok (sppDraws S 2)
  else if sp = "pachy" then .ok (sppDraws S 3)
  else .error (.assertionError (invalidSpeciesMsg speciesOld))

/-- The `mu` computation of `predict_mgca` (lines 111-126 of
`baymag/predict.py`), after the covariates have been coerced to 1-d and
omega has been transformed: `clean_term = 1 - beta_clean * cleaning[:,None]`,
`alphaadj = np.tile(alpha, nlen)`, `mu = np.transpose(alphaadj)
+ beta_temp*seatemp[:,None] + beta_omega*omega[:,None]
+ beta_salinity*salinity[:,None] + clean_term`, and, when the raw token
differs from the string `pachy`, `mu += beta_ph * ph[:,None]`.  `alpha`
enters with the dimensionality the store slicing produced: an `(m, 1)`
column (pooled models) tiles to `(m, nlen)` and transposes to `(nlen, m)`,
while a 1-d `(m,)` slice (hierarchical species) tiles to a flat
`(m*nlen,)` array on which `np.transpose` is a no-op, so the first
addition of the `mu` sum broadcasts it as `(1, m*nlen)` - raising
`ValueError` whenever that does not fit. -/
def predictMu (seatemp cleaning salinity ph omega2 : List ℚ) (spp : String)
    (d : Draws) : Except PyError Mat := do
  let nlen := seatemp.length
  let clean_prod ← bop (· * ·) (rowOf d.beta_clean) (colOf cleaning)
  let clean_term := emap (fun x => 1 - x) clean_prod
  let alphaadj := npTile d.alpha nlen
  let t1 ← bop (· * ·) (rowOf d.beta_temp) (colOf seatemp)
  let t2 ← bop (· * ·) (rowOf d.beta_omega) (colOf omega2)
  let t3 ← bop (· * ·) (rowOf d.beta_salinity) (colOf salinity)
  let s1 ← bopN (· + ·) (npTranspose alphaadj) t1
  let s2 ← bop (· + ·) s1 t2
  let s3 ← bop (· + ·) s2 t3
  let mu0 ← bop (· + ·) s3 clean_term
  if spp ≠ "pachy" then
    let t4 ← bop (· * ·) (rowOf d.beta_ph) (colOf ph)
    bop (· + ·) mu0 t4
  else
    pure mu0

/-- `np.random.normal(mu, sigmaT)` modelled with an explicit standard
noise matrix `z`: entry `(i, j)` is `mu[i,j] + sigmaT[i,j] * z i j`, with
the same shape broadcasting (and the same `ValueError`) as the numpy call. -/
def addNoise (mu sigmaT : Mat) (z : ℕ → ℕ → ℚ) : Except PyError Mat :=
  match bshape (matRows mu) (matRows sigmaT), bshape (matCols mu) (matCols sigmaT) with
  | some R, some C =>
      .ok (mkMat R C fun i j =>
        matGetB mu (matRows mu) (matCols mu) i j
          + matGetB sigmaT (matRows sigmaT) (matCols sigmaT) i j * z i j)
  | _, _ => .error (.valueError bmsg)

/-- `np.random.normal(mu, sigmaT)` where `sigmaT` may be 1-d or 2-d: the
1-d `(k,)` scale broadcasts against the 2-d `mu` exactly like `(1, k)`. -/
def addNoiseN (mu : Mat) (s : NdArr) (z : ℕ → ℕ → ℚ) : Except PyError Mat :=
  match s with
  | .one v => addNoise mu (rowOf v) z
  | .two A => addNoise mu A z

/-- `predict_mgca` of `baymag/predict.py`.  Covariates arrive as 1-d
arrays (`np.atleast_1d`; a scalar is a length-1 array), `omega` is
inverted as `omega ** -2` before use, the parameter draws come from the
injectable `drawsfun`, and the returned ensemble is
`np.exp(np.random.normal(mu, np.transpose(np.tile(sigma, nlen))))`,
tagged with the species token.  Like `alpha`, `sigma` keeps the
dimensionality the store slicing produced, so the tile/transpose/broadcast
of the scale follows the `(m, 1)`-column or 1-d path accordingly. -/
def predict_mgca (seatemp cleaning salinity ph omega : List ℚ) (spp : String)
    (drawsfun : String → Except PyError Draws) (z : ℕ → ℕ → ℚ) (e : ℚ → ℚ) :
    Except PyError Prediction := do
  let nlen := seatemp.length
  let omega2 := omega.map fun x => (x ^ 2)⁻¹
  let d ← drawsfun spp
  let mu ← predictMu seatemp cleaning salinity ph omega2 spp d
  let sigmaT := npTranspose (npTile d.sigma nlen)
  let noisy ← addNoiseN mu sigmaT z
  pure ⟨emap e noisy, spp⟩

/-- Python `int()` applied to a rational: truncation toward zero. -/
def pyInt (q : ℚ) : ℤ := if 0 ≤ q then ⌊q⌋ else ⌈q⌉

/-- The message of the `IndexError` numpy raises on an out-of-bounds row. -/
def ixmsg : String := "index out of bounds for axis 0"

/-- Python/numpy integer row indexing: a non-negative index must be below
the row count, a negative index counts from the end (`A[-1]` is the last
row), and anything else raises `IndexError`. -/
def npRowIndex (nrows : ℕ) (t : ℤ) : Except PyError ℕ :=
  if 0 ≤ t then
    if t < (nrows : ℤ) then .ok t.toNat else .error (.indexError ixmsg)
  else
    if -t ≤ (nrows : ℤ) then .ok (nrows - (-t).toNat) else .error (.indexError ixmsg)

/-- `sw_correction` of `baymag/predict.py`.  The smoothing curve
`mgsw_smooth` (rows = half-Ma age steps, columns = draws) is the
process-wide array loaded by `get_mgsw_smooth`, passed here explicitly;
`drawsfun` is accepted but never consulted (every use in the source is
commented out).  The row index is `t = int(age * 2)`, the per-draw ratio
is `mgsw_smooth[t, :] / mgsw_smooth[0, :]`, and the ensemble is scaled
elementwise by that ratio. -/
def sw_correction (mgsw_smooth : Mat) (mgcaprediction : Prediction) (age : ℚ)
    (drawsfun : Option (Unit → Mat)) : Except PyError Prediction := do
  let t := pyInt (age * 2)
  let r ← npRowIndex mgsw_smooth.length t
  let mgsw ← vecBop (· / ·) (mgsw_smooth.getD r []) (mgsw_smooth.getD 0 [])
  let ens ← bop (· * ·) mgcaprediction.ensemble (rowOf mgsw)
  pure ⟨ens, mgcaprediction.spp⟩

/-- numpy round-half-to-even (`np.around`) on a rational, as an integer. -/
def roundHalfEven (x : ℚ) : ℤ :=
  if x - ⌊x⌋ = 1 / 2 then (if 2 ∣ ⌊x⌋ then ⌊x⌋ else ⌊x⌋ + 1) else ⌊x + 1 / 2⌋

/-- `np.percentile(row, qv, interpolation="nearest")` for one observation
row: sort the ensemble members, take the virtual rank
`qv / 100 * (len - 1)`, round it to the nearest integer (half to even),
and return the member at that rank. -/
def pyPercentileNearest (row : List ℚ) (qv : ℚ) : ℚ :=
  (row.insertionSort (· ≤ ·)).getD
    (roundHalfEven (qv / 100 * ((row.length : ℚ) - 1))).toNat 0

/-- `Prediction.percentile` of `baymag/predict.py` with the default
`interpolation="nearest"`: `np.percentile(ensemble, q, axis=1)` produces
the `len(q) × n` array of per-row percentiles, which is then transposed. -/
def Prediction.percentile (p : Prediction) (q : List ℚ) : Mat :=
  let perc := q.map fun qv => p.ensemble.map fun row => pyPercentileNearest row qv
  transpose2 perc

/-- Whether a call result is the spec's `InvalidSpeciesError`. -/
def isInvalidSpeciesError {α : Type} : Except PyError α → Bool
  | .error (.invalidSpeciesError _) => true
  | _ => false

/-- Whether a call result is the spec's `CovariateShapeError`. -/
def isCovariateShapeError {α : Type} : Except PyError α → Bool
  | .error (.covariateShapeError _) => true
  | _ => false

/-- Whether a call result is the spec's `AgeOutOfRangeError`. -/
def isAgeOutOfRangeError {α : Type} : Except PyError α → Bool
  | .error (.ageOutOfRangeError _) => true
  | _ => false

/-! ### Basic lemmas about the array model -/

theorem exbind_ok {α β : Type} (a : α) (k : α → Except PyError β) :
    (Except.ok a >>= k) = k a := rfl

theorem exbind_err {α β : Type} (er : PyError) (k : α → Except PyError β) :
    ((Except.error er : Except PyError α) >>= k) = Except.error er := rfl

theorem getD_range_map {α : Type} (d : α) (g : ℕ → α) (R i : ℕ) (hi : i < R) :
    ((List.range R).map g).getD i d = g i := by
  rw [List.getD_eq_getElem?_getD, List.getElem?_map, List.getElem?_range hi]
  rfl

theorem length_mkMat (R C : ℕ) (g : ℕ → ℕ → ℚ) : (mkMat R C g).length = R := by
  simp [mkMat]

theorem matRows_mkMat (R C : ℕ) (g : ℕ → ℕ → ℚ) : matRows (mkMat R C g) = R := by
  simp [matRows, mkMat]

theorem matCols_mkMat (R C : ℕ) (g : ℕ → ℕ → ℚ) (hR : 0 < R) :
    matCols (mkMat R C g) = C := by
  cases R with
  | zero => omega
  | succ R => simp [matCols, mkMat, List.range_succ_eq_map]

theorem mem_mkMat_length (R C : ℕ) (g : ℕ → ℕ → ℚ) (r : List ℚ) (hr : r ∈ mkMat R C g) :
    r.length = C := by
  simp only [mkMat, List.mem_map] at hr
  obtain ⟨i, _, rfl⟩ := hr
  simp

theorem ment_mkMat (R C : ℕ) (g : ℕ → ℕ → ℚ) (i j : ℕ) (hi : i < R) (hj : j < C) :
    ment (mkMat R C g) i j = g i j := by
  unfold ment mkMat
  rw [getD_range_map _ _ _ _ hi, getD_range_map _ _ _ _ hj]

theorem mkMat_congr (R C : ℕ) (g g' : ℕ → ℕ → ℚ)
    (h : ∀ i < R, ∀ j < C, g i j = g' i j) : mkMat R C g = mkMat R C g' := by
  unfold mkMat
  refine List.map_congr_left fun i hi => ?_
  refine List.map_congr_left fun j hj => ?_
  exact h i (List.mem_range.mp hi) j (List.mem_range.mp hj)

theorem bshape_one_left (x : ℕ) : bshape 1 x = some x := by
  unfold bshape
  split_ifs with h1 h2 <;> simp_all

theorem bshape_one_right (x : ℕ) : bshape x 1 = some x := by
  unfold bshape
  split_ifs <;> simp_all

theorem bshape_self (x : ℕ) : bshape x x = some x := by
  simp [bshape]

theorem bshape_some (a b c : ℕ) (h : bshape a b = some c) :
    (a = b ∧ c = a) ∨ (a = 1 ∧ c = b) ∨ (b = 1 ∧ c = a) := by
  unfold bshape at h
  split_ifs at h with h1 h2 h3
  · injection h with h
    omega
  · injection h with h
    omega
  · injection h with h
    omega

theorem matRows_rowOf (u : List ℚ) : matRows (rowOf u) = 1 := rfl

theorem matCols_rowOf (u : List ℚ) : matCols (rowOf u) = u.length := rfl

theorem matRows_colOf (v : List ℚ) : matRows (colOf v) = v.length := by
  simp [matRows, colOf]

theorem matCols_colOf (v : List ℚ) (h : v ≠ []) : matCols (colOf v) = 1 := by
  cases v with
  | nil => simp at h
  | cons a l => simp [matCols, colOf]

theorem bop_eq_ok (f : ℚ → ℚ → ℚ) (A B : Mat) (R C : ℕ)
    (hR : bshape (matRows A) (matRows B) = some R)
    (hC : bshape (matCols A) (matCols B) = some C) :
    bop f A B = .ok (mkMat R C fun i j =>
      f (matGetB A (matRows A) (matCols A) i j)
        (matGetB B (matRows B) (matCols B) i j)) := by
  unfold bop
  rw [hR, hC]

theorem bop_error (f : ℚ → ℚ → ℚ) (A B : Mat) (er : PyError)
    (h : bop f A B = .error er) : er = .valueError bmsg := by
  unfold bop at h
  split at h <;> simp_all

theorem bop_ok_rows (f : ℚ → ℚ → ℚ) (A B C : Mat) (h : bop f A B = .ok C) :
    bshape (matRows A) (matRows B) = some (matRows C) := by
  unfold bop at h
  split at h
  case _ R C' hR hC =>
    obtain rfl : mkMat R C' _ = C := by injection h
    rw [matRows_mkMat]
    exact hR
  case _ => simp_all

theorem matGetB_of_lt (A : Mat) (r c i j : ℕ) (hi : i < r) (hj : j < c) :
    matGetB A r c i j = ment A i j := by
  unfold matGetB ment
  have h1 : (if r = 1 then 0 else i) = i := by split <;> omega
  have h2 : (if c = 1 then 0 else j) = j := by split <;> omega
  rw [h1, h2]

theorem matGetB_rowOf (u : List ℚ) (i j : ℕ) (hj : j < u.length) :
    matGetB (rowOf u) 1 u.length i j = u.getD j 0 := by
  unfold matGetB rowOf
  have h2 : (if u.length = 1 then 0 else j) = j := by split <;> omega
  rw [h2]
  simp

theorem matGetB_colOf (v : List ℚ) (i j : ℕ) (hi : i < v.length) :
    matGetB (colOf v) v.length 1 i j = v.getD i 0 := by
  unfold matGetB colOf
  have h1 : (if v.length = 1 then 0 else i) = i := by split <;> omega
  rw [h1]
  simp [List.getD_eq_getElem?_getD, List.getElem?_map, List.getElem?_eq_getElem hi]

theorem tile2_colOf (v : List ℚ) (n : ℕ) :
    tile2 (colOf v) n = v.map fun x => (List.range n).map fun _ => x := by
  unfold tile2 colOf
  rw [List.map_map]
  refine List.map_congr_left fun x _ => ?_
  simp [Nat.mod_one]

theorem transpose2_tile2_colOf (v : List ℚ) (n : ℕ) (hv : v ≠ []) :
    transpose2 (tile2 (colOf v) n) = (List.range n).map fun _ => v := by
  rw [tile2_colOf]
  obtain ⟨a, l, rfl⟩ : ∃ a l, v = a :: l := by
    cases v with
    | nil => simp at hv
    | cons a l => exact ⟨a, l, rfl⟩
  unfold transpose2 matCols
  simp only [List.map_cons, List.headD_cons, List.length_map, List.length_range]
  refine List.map_congr_left fun j hj => ?_
  rw [List.mem_range] at hj
  simp only [List.map_cons, List.map_map, Function.comp]
  rw [getD_range_map _ _ _ _ hj]
  congr 1
  refine (List.map_congr_left fun x _ => getD_range_map _ _ _ _ hj).trans ?_
  exact List.map_id l

theorem matRows_constRows (v : List ℚ) (n : ℕ) :
    matRows ((List.range n).map fun _ => v) = n := by
  simp [matRows]

theorem matCols_constRows (v : List ℚ) (n : ℕ) (hn : 0 < n) :
    matCols ((List.range n).map fun _ => v) = v.length := by
  cases n with
  | zero => omega
  | succ k => simp [matCols, List.range_succ_eq_map]

theorem ment_constRows (v : List ℚ) (n i j : ℕ) (hi : i < n) :
    ment ((List.range n).map fun _ => v) i j = v.getD j 0 := by
  unfold ment
  rw [getD_range_map _ _ _ _ hi]

theorem emap_mkMat (f : ℚ → ℚ) (R C : ℕ) (g : ℕ → ℕ → ℚ) :
    emap f (mkMat R C g) = mkMat R C fun i j => f (g i j) := by
  unfold emap mkMat
  simp [List.map_map, Function.comp]

theorem addNoise_eq_ok (mu sigmaT : Mat) (z : ℕ → ℕ → ℚ) (R C : ℕ)
    (hR : bshape (matRows mu) (matRows sigmaT) = some R)
    (hC : bshape (matCols mu) (matCols sigmaT) = some C) :
    addNoise mu sigmaT z = .ok (mkMat R C fun i j =>
      matGetB mu (matRows mu) (matCols mu) i j
        + matGetB sigmaT (matRows sigmaT) (matCols sigmaT) i j * z i j) := by
  unfold addNoise
  rw [hR, hC]

theorem addNoise_error (mu sigmaT : Mat) (z : ℕ → ℕ → ℚ) (er : PyError)
    (h : addNoise mu sigmaT z = .error er) : er = .valueError bmsg := by
  unfold addNoise at h
  split at h <;> simp_all

theorem vecBop_eq_ok (f : ℚ → ℚ → ℚ) (u v : List ℚ) (L : ℕ)
    (hL : bshape u.length v.length = some L) :
    vecBop f u v = .ok ((List.range L).map fun j =>
      f (u.getD (if u.length = 1 then 0 else j) 0)
        (v.getD (if v.length = 1 then 0 else j) 0)) := by
  unfold vecBop
  rw [hL]

theorem vecBop_error (f : ℚ → ℚ → ℚ) (u v : List ℚ) (er : PyError)
    (h : vecBop f u v = .error er) : er = .valueError bmsg := by
  unfold vecBop at h
  split at h <;> simp_all

theorem npRowIndex_nonneg_lt (nrows : ℕ) (t : ℤ) (h0 : 0 ≤ t) (hlt : t < (nrows : ℤ)) :
    npRowIndex nrows t = .ok t.toNat := by
  unfold npRowIndex
  rw [if_pos h0, if_pos hlt]

theorem npRowIndex_error_iff (nrows : ℕ) (t : ℤ) :
    npRowIndex nrows t = .error (.indexError ixmsg) ↔
      (t < -(nrows : ℤ) ∨ (nrows : ℤ) ≤ t) := by
  unfold npRowIndex
  split_ifs with h1 h2 h3
  · constructor
    · intro h
      exact absurd h (by simp)
    · intro h
      exact absurd h (by omega)
  · constructor
    · intro _
      omega
    · intro _
      rfl
  · constructor
    · intro h
      exact absurd h (by simp)
    · intro h
      exact absurd h (by omega)
  · constructor
    · intro _
      omega
    · intro _
      rfl

theorem npRowIndex_ok_or (nrows : ℕ) (t : ℤ) :
    (∃ r, npRowIndex nrows t = .ok r) ∨ npRowIndex nrows t = .error (.indexError ixmsg) := by
  unfold npRowIndex
  split_ifs <;> simp

theorem list_eq_range_map_getD (v : List ℚ) :
    (List.range v.length).map (fun j => v.getD j 0) = v := by
  refine List.ext_getElem (by simp) fun i h1 h2 => ?_
  simp only [List.getElem_map, List.getElem_range]
  rw [List.getD_eq_getElem _ _ h2]

theorem constRows_eq_mkMat (v : List ℚ) (n : ℕ) :
    (List.range n).map (fun _ => v) = mkMat n v.length fun _ j => v.getD j 0 := by
  unfold mkMat
  exact List.map_congr_left fun i _ => (list_eq_range_map_getD v).symm

theorem getD_map_lt (f : ℚ → ℚ) (v : List ℚ) (i : ℕ) (hi : i < v.length) :
    (v.map f).getD i 0 = f (v.getD i 0) := by
  rw [List.getD_eq_getElem?_getD, List.getElem?_map, List.getElem?_eq_getElem hi,
    List.getD_eq_getElem?_getD, List.getElem?_eq_getElem hi]
  rfl

theorem bop_row_col (f : ℚ → ℚ → ℚ) (u v : List ℚ) (n m : ℕ)
    (hu : u.length = m) (hv : v.length = n) (hn : 0 < n) (hm : 0 < m) :
    bop f (rowOf u) (colOf v) = .ok (mkMat n m fun i j => f (u.getD j 0) (v.getD i 0)) := by
  have hvne : v ≠ [] := by
    intro hh
    rw [hh] at hv
    simp at hv
    omega
  have h := bop_eq_ok f (rowOf u) (colOf v) n m
    (by rw [matRows_rowOf, matRows_colOf, hv]; exact bshape_one_left n)
    (by rw [matCols_rowOf, matCols_colOf _ hvne, hu]; exact bshape_one_right m)
  rw [h]
  congr 1
  apply mkMat_congr
  intro i hi j hj
  rw [matRows_rowOf, matCols_rowOf, matRows_colOf, matCols_colOf _ hvne]
  rw [matGetB_rowOf _ _ _ (by omega), matGetB_colOf _ _ _ (by omega)]

theorem mkMat_step (f : ℚ → ℚ → ℚ) (g1 g2 g3 : ℕ → ℕ → ℚ) (n m : ℕ)
    (hn : 0 < n) (hm : 0 < m)
    (hg : ∀ i < n, ∀ j < m, f (g1 i j) (g2 i j) = g3 i j) :
    bop f (mkMat n m g1) (mkMat n m g2) = .ok (mkMat n m g3) := by
  have h := bop_eq_ok f (mkMat n m g1) (mkMat n m g2) n m
    (by rw [matRows_mkMat, matRows_mkMat]; exact bshape_self n)
    (by rw [matCols_mkMat n m g1 hn, matCols_mkMat n m g2 hn]; exact bshape_self m)
  rw [h]
  congr 1
  apply mkMat_congr
  intro i hi j hj
  rw [matRows_mkMat n m g1, matRows_mkMat n m g2,
    matCols_mkMat n m g1 hn, matCols_mkMat n m g2 hn]
  rw [matGetB_of_lt _ _ _ _ _ hi hj, matGetB_of_lt _ _ _ _ _ hi hj,
    ment_mkMat _ _ _ _ _ hi hj, ment_mkMat _ _ _ _ _ hi hj]
  exact hg i hi j hj

theorem addNoise_step (g1 g2 : ℕ → ℕ → ℚ) (z : ℕ → ℕ → ℚ) (n m : ℕ)
    (hn : 0 < n) (hm : 0 < m) :
    addNoise (mkMat n m g1) (mkMat n m g2) z
      = .ok (mkMat n m fun i j => g1 i j + g2 i j * z i j) := by
  have h := addNoise_eq_ok (mkMat n m g1) (mkMat n m g2) z n m
    (by rw [matRows_mkMat, matRows_mkMat]; exact bshape_self n)
    (by rw [matCols_mkMat n m g1 hn, matCols_mkMat n m g2 hn]; exact bshape_self m)
  rw [h]
  congr 1
  apply mkMat_congr
  intro i hi j hj
  rw [matRows_mkMat n m g1, matRows_mkMat n m g2,
    matCols_mkMat n m g1 hn, matCols_mkMat n m g2 hn]
  rw [matGetB_of_lt _ _ _ _ _ hi hj, matGetB_of_lt _ _ _ _ _ hi hj,
    ment_mkMat _ _ _ _ _ hi hj, ment_mkMat _ _ _ _ _ hi hj]

/-- Read a covariate value for observation `i`, broadcasting a scalar
(length-1 array) across all observations, exactly as numpy broadcasts a
length-1 axis. -/
def bcastGet (v : List ℚ) (i : ℕ) : ℚ := v.getD (if v.length = 1 then 0 else i) 0

theorem npTile1_one (v : List ℚ) : npTile1 v 1 = v := by
  unfold npTile1
  rw [Nat.mul_one]
  have h1 : (List.range v.length).map (fun j => v.getD (j % v.length) 0)
      = (List.range v.length).map (fun j => v.getD j 0) :=
    List.map_congr_left fun j hj => by
      rw [List.mem_range] at hj
      rw [Nat.mod_eq_of_lt hj]
  rw [h1, list_eq_range_map_getD]

theorem rowOf_eq_mkMat (a : List ℚ) (m : ℕ) (ha : a.length = m) :
    rowOf a = mkMat 1 m fun _ j => a.getD j 0 := by
  subst ha
  show [a] = (List.range 1).map fun i => (List.range a.length).map fun j => a.getD j 0
  have h1 : List.range 1 = [0] := rfl
  rw [h1, List.map_cons, List.map_nil, list_eq_range_map_getD]

theorem bopN_sliceT (f : ℚ → ℚ → ℚ) (al : NdArr) (a : List ℚ) (n m : ℕ)
    (ha : a.length = m) (hm : 0 < m)
    (hcase : al = .two (colOf a) ∨ (n = 1 ∧ al = .one a)) (B : Mat) :
    bopN f (npTranspose (npTile al n)) B
      = bop f (mkMat n m fun _ j => a.getD j 0) B := by
  have hane : a ≠ [] := by
    intro hh
    rw [hh] at ha
    simp at ha
    omega
  rcases hcase with rfl | ⟨rfl, rfl⟩
  · show bop f (transpose2 (tile2 (colOf a) n)) B = _
    rw [transpose2_tile2_colOf _ _ hane, constRows_eq_mkMat, ha]
  · show bop f (rowOf (npTile1 a 1)) B = _
    rw [npTile1_one, rowOf_eq_mkMat a m ha]

theorem addNoiseN_sliceT (mu : Mat) (sg : NdArr) (s : List ℚ) (z : ℕ → ℕ → ℚ)
    (n m : ℕ) (hs : s.length = m) (hm : 0 < m)
    (hcase : sg = .two (colOf s) ∨ (n = 1 ∧ sg = .one s)) :
    addNoiseN mu (npTranspose (npTile sg n)) z
      = addNoise mu (mkMat n m fun _ j => s.getD j 0) z := by
  have hsne : s ≠ [] := by
    intro hh
    rw [hh] at hs
    simp at hs
    omega
  rcases hcase with rfl | ⟨rfl, rfl⟩
  · show addNoise mu (transpose2 (tile2 (colOf s) n)) z = _
    rw [transpose2_tile2_colOf _ _ hsne, constRows_eq_mkMat, hs]
  · show addNoise mu (rowOf (npTile1 s 1)) z = _
    rw [npTile1_one, rowOf_eq_mkMat s m hs]

theorem matGetB_mkMat_clamp (R C : ℕ) (g : ℕ → ℕ → ℚ) (i j : ℕ)
    (hi : (if R = 1 then 0 else i) < R) (hj : j < C) :
    matGetB (mkMat R C g) R C i j = g (if R = 1 then 0 else i) j := by
  unfold matGetB
  have hj2 : (if C = 1 then 0 else j) = j := by split <;> omega
  rw [hj2]
  exact ment_mkMat R C g _ j hi hj

theorem mkMat_step_bcast (f : ℚ → ℚ → ℚ) (g1 g2 g3 : ℕ → ℕ → ℚ) (n r m : ℕ)
    (hn : 0 < n) (hm : 0 < m) (hr : r = n ∨ r = 1)
    (hg : ∀ i < n, ∀ j < m, f (g1 i j) (g2 (if r = 1 then 0 else i) j) = g3 i j) :
    bop f (mkMat n m g1) (mkMat r m g2) = .ok (mkMat n m g3) := by
  have hr0 : 0 < r := by rcases hr with rfl | rfl <;> omega
  have hbr : bshape n r = some n := by
    rcases hr with h | h
    · rw [h]; exact bshape_self n
    · rw [h]; exact bshape_one_right n
  have h := bop_eq_ok f (mkMat n m g1) (mkMat r m g2) n m
    (by rw [matRows_mkMat, matRows_mkMat]; exact hbr)
    (by rw [matCols_mkMat n m g1 hn, matCols_mkMat r m g2 hr0]; exact bshape_self m)
  rw [h]
  congr 1
  apply mkMat_congr
  intro i hi j hj
  rw [matRows_mkMat n m g1, matRows_mkMat r m g2,
    matCols_mkMat n m g1 hn, matCols_mkMat r m g2 hr0]
  rw [matGetB_of_lt _ _ _ _ _ hi hj, ment_mkMat _ _ _ _ _ hi hj]
  rw [matGetB_mkMat_clamp r m g2 i j (by split <;> omega) hj]
  exact hg i hi j hj

theorem bcastGet_map (f : ℚ → ℚ) (v : List ℚ) (i : ℕ)
    (h : i < v.length ∨ v.length = 1) :
    bcastGet (v.map f) i = f (bcastGet v i) := by
  unfold bcastGet
  rw [List.length_map]
  exact getD_map_lt f v _ (by split <;> omega)

theorem predictMu_uniform (st cl sal ph om2 : List ℚ) (spp : String) (d : Draws)
    (a : List ℚ) (n m : ℕ) (hn : 0 < n) (hm : 0 < m)
    (hst : st.length = n) (hcl : cl.length = n)
    (hsal : sal.length = n ∨ sal.length = 1)
    (hph : ph.length = n ∨ ph.length = 1)
    (hom : om2.length = n ∨ om2.length = 1)
    (hacase : d.alpha = .two (colOf a) ∨ (n = 1 ∧ d.alpha = .one a))
    (ha : a.length = m) (hbt : d.beta_temp.length = m)
    (hbs : d.beta_salinity.length = m) (hbo : d.beta_omega.length = m)
    (hbp : d.beta_ph.length = m) (hbc : d.beta_clean.length = m) :
    predictMu st cl sal ph om2 spp d = .ok (mkMat n m fun i j =>
      a.getD j 0 + d.beta_temp.getD j 0 * st.getD i 0
        + d.beta_omega.getD j 0 * bcastGet om2 i
        + d.beta_salinity.getD j 0 * bcastGet sal i
        + (1 - d.beta_clean.getD j 0 * cl.getD i 0)
        + (if spp = "pachy" then 0 else d.beta_ph.getD j 0 * bcastGet ph i)) := by
  have hsal0 : 0 < sal.length := by rcases hsal with h | h <;> omega
  have hph0 : 0 < ph.length := by rcases hph with h | h <;> omega
  have hom0 : 0 < om2.length := by rcases hom with h | h <;> omega
  have hcp := bop_row_col (· * ·) d.beta_clean cl n m hbc hcl hn hm
  have hct : emap (fun x => 1 - x) (mkMat n m fun i j => d.beta_clean.getD j 0 * cl.getD i 0)
      = mkMat n m fun i j => 1 - d.beta_clean.getD j 0 * cl.getD i 0 :=
    emap_mkMat _ _ _ _
  have halphaT := bopN_sliceT (· + ·) d.alpha a n m ha hm hacase
  have ht1 := bop_row_col (· * ·) d.beta_temp st n m hbt hst hn hm
  have ht2 := bop_row_col (· * ·) d.beta_omega om2 om2.length m hbo rfl hom0 hm
  have ht3 := bop_row_col (· * ·) d.beta_salinity sal sal.length m hbs rfl hsal0 hm
  have hs1 := mkMat_step (· + ·)
    (fun _ j => a.getD j 0)
    (fun i j => d.beta_temp.getD j 0 * st.getD i 0)
    (fun i j => a.getD j 0 + d.beta_temp.getD j 0 * st.getD i 0)
    n m hn hm (fun i _ j _ => rfl)
  have hs2 := mkMat_step_bcast (· + ·)
    (fun i j => a.getD j 0 + d.beta_temp.getD j 0 * st.getD i 0)
    (fun i j => d.beta_omega.getD j 0 * om2.getD i 0)
    (fun i j => a.getD j 0 + d.beta_temp.getD j 0 * st.getD i 0
      + d.beta_omega.getD j 0 * bcastGet om2 i)
    n om2.length m hn hm hom (fun i _ j _ => rfl)
  have hs3 := mkMat_step_bcast (· + ·)
    (fun i j => a.getD j 0 + d.beta_temp.getD j 0 * st.getD i 0
      + d.beta_omega.getD j 0 * bcastGet om2 i)
    (fun i j => d.beta_salinity.getD j 0 * sal.getD i 0)
    (fun i j => a.getD j 0 + d.beta_temp.getD j 0 * st.getD i 0
      + d.beta_omega.getD j 0 * bcastGet om2 i + d.beta_salinity.getD j 0 * bcastGet sal i)
    n sal.length m hn hm hsal (fun i _ j _ => rfl)
  have hmu0 := mkMat_step (· + ·)
    (fun i j => a.getD j 0 + d.beta_temp.getD j 0 * st.getD i 0
      + d.beta_omega.getD j 0 * bcastGet om2 i + d.beta_salinity.getD j 0 * bcastGet sal i)
    (fun i j => 1 - d.beta_clean.getD j 0 * cl.getD i 0)
    (fun i j => a.getD j 0 + d.beta_temp.getD j 0 * st.getD i 0
      + d.beta_omega.getD j 0 * bcastGet om2 i + d.beta_salinity.getD j 0 * bcastGet sal i
      + (1 - d.beta_clean.getD j 0 * cl.getD i 0))
    n m hn hm (fun i _ j _ => rfl)
  by_cases hsp : spp = "pachy"
  · subst hsp
    simp only [predictMu, hcp, exbind_ok, hct, hst, halphaT, ht1, ht2, ht3, hs1, hs2, hs3,
      hmu0, ne_eq, not_true_eq_false, if_neg, ite_false, reduceIte]
    congr 1
    apply mkMat_congr
    intro i hi j hj
    simp
  · have ht4 := bop_row_col (· * ·) d.beta_ph ph ph.length m hbp rfl hph0 hm
    have hfin := mkMat_step_bcast (· + ·)
      (fun i j => a.getD j 0 + d.beta_temp.getD j 0 * st.getD i 0
        + d.beta_omega.getD j 0 * bcastGet om2 i + d.beta_salinity.getD j 0 * bcastGet sal i
        + (1 - d.beta_clean.getD j 0 * cl.getD i 0))
      (fun i j => d.beta_ph.getD j 0 * ph.getD i 0)
      (fun i j => a.getD j 0 + d.beta_temp.getD j 0 * st.getD i 0
        + d.beta_omega.getD j 0 * bcastGet om2 i + d.beta_salinity.getD j 0 * bcastGet sal i
        + (1 - d.beta_clean.getD j 0 * cl.getD i 0) + d.beta_ph.getD j 0 * bcastGet ph i)
      n ph.length m hn hm hph (fun i _ j _ => rfl)
    simp only [predictMu, hcp, exbind_ok, hct, hst, halphaT, ht1, ht2, ht3, hs1, hs2, hs3,
      hmu0, ne_eq, hsp, not_false_iff, if_pos, ite_true, ht4, hfin, reduceIte]

theorem predict_mgca_uniform (st cl sal ph om : List ℚ) (spp : String)
    (df : String → Except PyError Draws) (z : ℕ → ℕ → ℚ) (e : ℚ → ℚ) (d : Draws)
    (a s : List ℚ) (n m : ℕ) (hn : 0 < n) (hm : 0 < m) (hdf : df spp = .ok d)
    (hst : st.length = n) (hcl : cl.length = n)
    (hsal : sal.length = n ∨ sal.length = 1)
    (hph : ph.length = n ∨ ph.length = 1)
    (hom : om.length = n ∨ om.length = 1)
    (hacase : d.alpha = .two (colOf a) ∨ (n = 1 ∧ d.alpha = .one a))
    (hscase : d.sigma = .two (colOf s) ∨ (n = 1 ∧ d.sigma = .one s))
    (ha : a.length = m) (hsg : s.length = m) (hbt : d.beta_temp.length = m)
    (hbs : d.beta_salinity.length = m) (hbo : d.beta_omega.length = m)
    (hbp : d.beta_ph.length = m) (hbc : d.beta_clean.length = m) :
    predict_mgca st cl sal ph om spp df z e = .ok ⟨mkMat n m fun i j =>
      e (a.getD j 0 + d.beta_temp.getD j 0 * st.getD i 0
        + d.beta_omega.getD j 0 * ((bcastGet om i) ^ 2)⁻¹
        + d.beta_salinity.getD j 0 * bcastGet sal i
        + (1 - d.beta_clean.getD j 0 * cl.getD i 0)
        + (if spp = "pachy" then 0 else d.beta_ph.getD j 0 * bcastGet ph i)
        + s.getD j 0 * z i j), spp⟩ := by
  have hom0 : 0 < om.length := by rcases hom with h | h <;> omega
  have hom2 : (om.map fun x => (x ^ 2)⁻¹).length = n
      ∨ (om.map fun x => (x ^ 2)⁻¹).length = 1 := by
    rw [List.length_map]
    exact hom
  have hmu := predictMu_uniform st cl sal ph (om.map fun x => (x ^ 2)⁻¹) spp d a n m hn hm
    hst hcl hsal hph hom2 hacase ha hbt hbs hbo hbp hbc
  have hsig := addNoiseN_sliceT (mkMat n m fun i j =>
      a.getD j 0 + d.beta_temp.getD j 0 * st.getD i 0
        + d.beta_omega.getD j 0 * bcastGet (om.map fun x => (x ^ 2)⁻¹) i
        + d.beta_salinity.getD j 0 * bcastGet sal i
        + (1 - d.beta_clean.getD j 0 * cl.getD i 0)
        + (if spp = "pachy" then 0 else d.beta_ph.getD j 0 * bcastGet ph i))
    d.sigma s z n m hsg hm hscase
  have hnoise := addNoise_step
    (fun i j => a.getD j 0 + d.beta_temp.getD j 0 * st.getD i 0
      + d.beta_omega.getD j 0 * bcastGet (om.map fun x => (x ^ 2)⁻¹) i
      + d.beta_salinity.getD j 0 * bcastGet sal i
      + (1 - d.beta_clean.getD j 0 * cl.getD i 0)
      + (if spp = "pachy" then 0 else d.beta_ph.getD j 0 * bcastGet ph i))
    (fun _ j => s.getD j 0) z n m hn hm
  simp only [predict_mgca, hdf, exbind_ok, hmu, hst, hsig, hnoise, emap_mkMat]
  congr 1
  congr 1
  apply mkMat_congr
  intro i hi j hj
  rw [bcastGet_map (fun x => (x ^ 2)⁻¹) om i (by omega)]

theorem npRowIndex_error_val (nrows : ℕ) (t : ℤ) (er : PyError)
    (h : npRowIndex nrows t = .error er) : er = .indexError ixmsg := by
  unfold npRowIndex at h
  split_ifs at h <;> simp_all

theorem headD_mem (A : Mat) (h : 0 < A.length) : A.headD [] ∈ A := by
  cases A with
  | nil => simp at h
  | cons r A => simp

theorem getD_mem_of_lt (v : List ℚ) (i : ℕ) (hi : i < v.length) : v.getD i 0 ∈ v := by
  rw [List.getD_eq_getElem _ _ hi]
  exact List.getElem_mem _

theorem getD_row_mem (A : Mat) (r : ℕ) (hr : r < A.length) : A.getD r [] ∈ A := by
  rw [List.getD_eq_getElem _ _ hr]
  exact List.getElem_mem _

theorem mat_reconstruct (A : Mat) (m : ℕ) (h : ∀ r ∈ A, r.length = m) :
    mkMat A.length m (fun i j => ment A i j) = A := by
  refine List.ext_getElem (by simp [mkMat]) fun i h1 h2 => ?_
  unfold mkMat
  rw [List.getElem_map, List.getElem_range]
  have hAi : A[i].length = m := h _ (List.getElem_mem h2)
  refine List.ext_getElem (by simp [hAi]) fun j hj1 hj2 => ?_
  rw [List.getElem_map, List.getElem_range]
  show ment A i j = A[i][j]
  unfold ment
  rw [List.getD_eq_getElem _ _ h2, List.getD_eq_getElem _ _ hj2]

theorem sw_correction_ok (curve E : Mat) (s : String) (age : ℚ)
    (df : Option (Unit → Mat)) (m : ℕ)
    (hcurve : ∀ r ∈ curve, r.length = m) (hE : ∀ r ∈ E, r.length = m)
    (hEne : 0 < E.length) (hage : 0 ≤ age) (ht : ⌊age * 2⌋ < (curve.length : ℤ)) :
    sw_correction curve ⟨E, s⟩ age df = .ok ⟨mkMat E.length m (fun i j =>
      ment E i j * (ment curve (⌊age * 2⌋).toNat j / ment curve 0 j)), s⟩ := by
  have h2 : (0:ℚ) ≤ age * 2 := by positivity
  have hpy : pyInt (age * 2) = ⌊age * 2⌋ := by
    unfold pyInt
    rw [if_pos h2]
  have hfl0 : 0 ≤ ⌊age * 2⌋ := Int.floor_nonneg.mpr h2
  have hnp : npRowIndex curve.length (pyInt (age * 2)) = .ok (⌊age * 2⌋).toNat := by
    rw [hpy]
    exact npRowIndex_nonneg_lt _ _ hfl0 ht
  have htlt : (⌊age * 2⌋).toNat < curve.length := by omega
  have hc0 : 0 < curve.length := by omega
  have hrowt : (curve.getD (⌊age * 2⌋).toNat []).length = m :=
    hcurve _ (getD_row_mem _ _ htlt)
  have hrow0 : (curve.getD 0 []).length = m := hcurve _ (getD_row_mem _ _ hc0)
  have hmg := vecBop_eq_ok (· / ·) (curve.getD (⌊age * 2⌋).toNat []) (curve.getD 0 []) m
    (by rw [hrowt, hrow0]; exact bshape_self m)
  set mg : List ℚ := (List.range m).map fun j =>
    (curve.getD (⌊age * 2⌋).toNat []).getD
        (if (curve.getD (⌊age * 2⌋).toNat []).length = 1 then 0 else j) 0
      / (curve.getD 0 []).getD (if (curve.getD 0 []).length = 1 then 0 else j) 0 with hmgdef
  have hmglen : mg.length = m := by simp [hmgdef]
  have hcolsE : matCols E = m := hE _ (headD_mem _ hEne)
  have hbop := bop_eq_ok (· * ·) E (rowOf mg) E.length m
    (by rw [matRows_rowOf]; exact bshape_one_right _)
    (by rw [matCols_rowOf, hcolsE, hmglen]; exact bshape_self m)
  simp only [sw_correction, hnp, exbind_ok, hmg, ← hmgdef, hbop]
  congr 2
  apply mkMat_congr
  intro i hi j hj
  rw [matRows_rowOf, matCols_rowOf, show matRows E = E.length from rfl, hcolsE]
  rw [matGetB_of_lt _ _ _ _ _ hi hj, matGetB_rowOf _ _ _ (by omega)]
  rw [hmgdef, getD_range_map _ _ _ _ hj]
  have hit : (if (curve.getD (⌊age * 2⌋).toNat []).length = 1 then 0 else j) = j := by
    rw [hrowt]
    split <;> omega
  have hi0 : (if (curve.getD 0 []).length = 1 then 0 else j) = j := by
    rw [hrow0]
    split <;> omega
  rw [hit, hi0]
  rfl


def curve3 : Mat := [[10, 10], [9, 11], [8, 12]]

/-- Claim C2: for every prediction ensemble of n observations by m draws
and every non-negative in-bounds scalar age, `sw_correction` returns an
ensemble whose (i,j) entry is `E[i,j] * curve[Int.floor (age*2), j] /
curve[0, j]`; the witness instantiates the claim's synthetic 3-row curve
`[[10,10],[9,11],[8,12]]` with ensemble `[[100,100]]` and age 1.3, where
the row index is 2 and the output is `[[80,120]]`. -/
theorem claimC2 (curve E : Mat) (s : String) (age : ℚ)
    (df : Option (Unit → Mat)) (m : ℕ)
    (hcurve : ∀ r ∈ curve, r.length = m) (hE : ∀ r ∈ E, r.length = m)
    (hEne : 0 < E.length) (hage : 0 ≤ age) (ht : ⌊age * 2⌋ < (curve.length : ℤ)) :
    ∃ E2, sw_correction curve ⟨E, s⟩ age df = .ok ⟨E2, s⟩ ∧
      E2.length = E.length ∧ (∀ r ∈ E2, r.length = m) ∧
      ∀ i j, i < E.length → j < m →
        ment E2 i j = ment E i j * ment curve (⌊age * 2⌋).toNat j / ment curve 0 j := by
  refine ⟨_, sw_correction_ok curve E s age df m hcurve hE hEne hage ht,
    length_mkMat _ _ _, fun r hr => mem_mkMat_length _ _ _ _ hr, fun i j hi hj => ?_⟩
  rw [ment_mkMat _ _ _ _ _ hi hj, mul_div_assoc]

unseal Rat.mul Rat.inv Rat.add Rat.sub in
theorem claimC2_witness :
    ∃ E2, sw_correction curve3 ⟨[[100, 100]], "ruber"⟩ (13 / 10) none
        = .ok ⟨E2, "ruber"⟩ ∧ ment E2 0 0 = 80 ∧ ment E2 0 1 = 120 := by
  obtain ⟨E2, hok, hlen, hrows, hent⟩ :=
    claimC2 curve3 [[100, 100]] "ruber" (13 / 10) none 2
      (by decide) (by decide) (by decide) (by decide) (by decide)
  refine ⟨E2, hok, ?_, ?_⟩
  · rw [hent 0 0 (by decide) (by decide)]
    decide
  · rw [hent 0 1 (by decide) (by decide)]
    decide

/-- Claim C8: `sw_correction` with age 0 is the identity on the ensemble
whenever row 0 of the correction curve has nonzero entries, because the
per-draw ratio `curve[0,j]/curve[0,j]` is 1 for every draw. -/
theorem claimC8 (curve E : Mat) (s : String) (df : Option (Unit → Mat)) (m : ℕ)
    (hc : 0 < curve.length) (hm0 : (curve.getD 0 []).length = m)
    (hnz : ∀ x ∈ curve.getD 0 [], x ≠ 0)
    (hE : ∀ r ∈ E, r.length = m) (hEne : 0 < E.length) :
    sw_correction curve ⟨E, s⟩ 0 df = .ok ⟨E, s⟩ := by
  have h0 : pyInt ((0:ℚ) * 2) = 0 := by
    unfold pyInt
    rw [zero_mul, if_pos le_rfl, Int.floor_zero]
  have hnp : npRowIndex curve.length (pyInt ((0:ℚ) * 2)) = .ok 0 := by
    rw [h0]
    have := npRowIndex_nonneg_lt curve.length 0 le_rfl (by exact_mod_cast hc)
    simpa using this
  have hmg := vecBop_eq_ok (· / ·) (curve.getD 0 []) (curve.getD 0 []) m
    (by rw [hm0]; exact bshape_self m)
  have hones : ((List.range m).map fun j =>
      (curve.getD 0 []).getD (if (curve.getD 0 []).length = 1 then 0 else j) 0
        / (curve.getD 0 []).getD (if (curve.getD 0 []).length = 1 then 0 else j) 0)
      = (List.range m).map fun _ => (1:ℚ) := by
    refine List.map_congr_left fun j hj => ?_
    rw [List.mem_range] at hj
    have hkm : (if (curve.getD 0 []).length = 1 then 0 else j)
        < (curve.getD 0 []).length := by
      rw [hm0]
      split <;> omega
    exact div_self (hnz _ (getD_mem_of_lt _ _ hkm))
  have hcolsE : matCols E = m := hE _ (headD_mem _ hEne)
  have hb := bop_eq_ok (· * ·) E (rowOf ((List.range m).map fun _ => (1:ℚ))) E.length m
    (by rw [matRows_rowOf]; exact bshape_one_right _)
    (by rw [matCols_rowOf, hcolsE]; simp [bshape_self])
  simp only [sw_correction, hnp, exbind_ok, hmg, hones, hb]
  congr 2
  have hstep : (mkMat E.length m fun i j =>
      matGetB E (matRows E) (matCols E) i j
        * matGetB (rowOf ((List.range m).map fun _ => (1:ℚ)))
            (matRows (rowOf ((List.range m).map fun _ => (1:ℚ))))
            (matCols (rowOf ((List.range m).map fun _ => (1:ℚ)))) i j)
      = mkMat E.length m fun i j => ment E i j := by
    apply mkMat_congr
    intro i hi j hj
    rw [matRows_rowOf, matCols_rowOf, show matRows E = E.length from rfl, hcolsE]
    rw [matGetB_of_lt _ _ _ _ _ hi hj,
      matGetB_rowOf _ _ _ (by simp; omega)]
    rw [getD_range_map _ _ _ _ (by omega : j < m)]
    exact mul_one _
  rw [hstep]
  exact mat_reconstruct E m hE

unseal Rat.mul Rat.inv Rat.add Rat.sub in
theorem claimC8_witness :
    sw_correction curve3 ⟨[[100, 100]], "all"⟩ 0 none = .ok ⟨[[100, 100]], "all"⟩ :=
  claimC8 curve3 [[100, 100]] "all" none 2 (by decide) (by decide) (by decide)
    (by decide) (by decide)

/-- Claim C10: the result of `sw_correction` does not depend on its
`drawsfun` argument: the parameter is accepted but never consulted (every
use in the source is commented out), so for any two values the calls
return identical results, including the ensemble and the species tag. -/
theorem claimC10 (curve : Mat) (p : Prediction) (age : ℚ)
    (f g : Option (Unit → Mat)) :
    sw_correction curve p age f = sw_correction curve p age g := rfl

theorem sw_correction_indexError_of (curve : Mat) (p : Prediction) (age : ℚ)
    (df : Option (Unit → Mat))
    (h : npRowIndex curve.length (pyInt (age * 2)) = .error (.indexError ixmsg)) :
    sw_correction curve p age df = .error (.indexError ixmsg) := by
  simp only [sw_correction, h, exbind_err]

theorem sw_correction_no_indexError (curve : Mat) (p : Prediction) (age : ℚ)
    (df : Option (Unit → Mat)) (r : ℕ)
    (h : npRowIndex curve.length (pyInt (age * 2)) = .ok r) (msg : String) :
    sw_correction curve p age df ≠ .error (.indexError msg) := by
  simp only [sw_correction, h, exbind_ok]
  cases hmg : vecBop (· / ·) (curve.getD r []) (curve.getD 0 []) with
  | error e =>
    rw [exbind_err]
    have := vecBop_error _ _ _ _ hmg
    subst this
    simp
  | ok mg =>
    simp only [exbind_ok]
    cases hb : bop (· * ·) p.ensemble (rowOf mg) with
    | error e =>
      rw [exbind_err]
      have := bop_error _ _ _ _ hb
      subst this
      simp
    | ok ens =>
      simp only [exbind_ok]
      intro hcon
      exact Except.noConfusion hcon

/-- Claim C5 (amended): `sw_correction` raises `IndexError` - the code
has no `AgeOutOfRangeError` - exactly when `t = int(age*2)` (Python
truncation toward zero, not floor) falls outside Python's index range
`[-nrows, nrows)`; negative ages with `t >= -nrows` succeed via Python
negative indexing, and ages in `(-1/2, 0]` truncate to `t = 0`. -/
theorem claimC5_amended (curve : Mat) (p : Prediction) (age : ℚ)
    (df : Option (Unit → Mat)) :
    (∃ msg, sw_correction curve p age df = .error (.indexError msg)) ↔
      (pyInt (age * 2) < -(curve.length : ℤ) ∨ (curve.length : ℤ) ≤ pyInt (age * 2)) := by
  rcases npRowIndex_ok_or curve.length (pyInt (age * 2)) with ⟨r, hr⟩ | herr
  · constructor
    · rintro ⟨msg, hmsg⟩
      exact absurd hmsg (sw_correction_no_indexError curve p age df r hr msg)
    · intro hcond
      have hcontra := (npRowIndex_error_iff curve.length (pyInt (age * 2))).mpr hcond
      rw [hr] at hcontra
      simp at hcontra
  · constructor
    · intro _
      exact (npRowIndex_error_iff _ _).mp herr
    · intro _
      exact ⟨ixmsg, sw_correction_indexError_of curve p age df herr⟩

unseal Rat.mul Rat.inv Rat.add Rat.sub in
theorem claimC5_counterexample :
    sw_correction curve3 ⟨[[100, 100]], "ruber"⟩ (-(1:ℚ)/4) none
        = .ok ⟨[[100, 100]], "ruber"⟩ ∧ (-(1:ℚ)/4 < 0) := by
  constructor <;> decide


def draws1 : Draws := ⟨.two (colOf [1]), [1], [1], [1], [1], [1], .two (colOf [1])⟩

def draws0 : Draws := ⟨.one [0], [0], [0], [0], [1], [0], .one [0]⟩

/-- Claim C1 (amended): for draws resolving successfully to `d`, with
`d.alpha`/`d.sigma` either genuine `(m,1)` column slices (the pooled
stores, sliced with `[:, None]`) or, when the observation count is 1,
1-d hierarchical slices, and covariates of observation count n --
seatemp and cleaning n-length, salinity/ph/omega n-length or scalar
(length-1, numpy-broadcast) -- `predict_mgca` computes, for every
observation i and draw j, the linear predictor `mu[i,j] = alpha[j]
+ beta_temp[j]*seatemp[i] + beta_omega[j]*omega[i]^-2
+ beta_salinity[j]*salinity[i] + (1 - beta_clean[j]*cleaning[i])`, with
omega the untransformed caller input, plus `beta_ph[j]*ph[i]` when the
species token is not `pachy`; the returned ensemble entry is `e`
(modelling `np.exp`) applied to `mu[i,j]` plus the residual draw
`sigma[j] * z i j`.  The original claim is refuted: for a hierarchical
species ('ruber' etc.) the 1-d alpha slice is flattened by `np.tile`, so
with n >= 2 observations and m >= 2 draws the mu addition raises numpy's
broadcast ValueError instead of producing the linear predictor; see
the counterexample. -/
theorem claimC1_amended (st cl sal ph om : List ℚ) (spp : String)
    (df : String → Except PyError Draws) (z : ℕ → ℕ → ℚ) (e : ℚ → ℚ) (d : Draws)
    (a s : List ℚ) (n m : ℕ) (hn : 0 < n) (hm : 0 < m) (hdf : df spp = .ok d)
    (hst : st.length = n) (hcl : cl.length = n)
    (hsal : sal.length = n ∨ sal.length = 1)
    (hph : ph.length = n ∨ ph.length = 1)
    (hom : om.length = n ∨ om.length = 1)
    (hacase : d.alpha = .two (colOf a) ∨ (n = 1 ∧ d.alpha = .one a))
    (hscase : d.sigma = .two (colOf s) ∨ (n = 1 ∧ d.sigma = .one s))
    (ha : a.length = m) (hsg : s.length = m) (hbt : d.beta_temp.length = m)
    (hbs : d.beta_salinity.length = m) (hbo : d.beta_omega.length = m)
    (hbp : d.beta_ph.length = m) (hbc : d.beta_clean.length = m) :
    ∃ P : Prediction, predict_mgca st cl sal ph om spp df z e = .ok P ∧ P.spp = spp ∧
      ∀ i j, i < n → j < m →
        ment P.ensemble i j
          = e (a.getD j 0 + d.beta_temp.getD j 0 * st.getD i 0
            + d.beta_omega.getD j 0 * ((bcastGet om i) ^ 2)⁻¹
            + d.beta_salinity.getD j 0 * bcastGet sal i
            + (1 - d.beta_clean.getD j 0 * cl.getD i 0)
            + (if spp = "pachy" then 0 else d.beta_ph.getD j 0 * bcastGet ph i)
            + s.getD j 0 * z i j) := by
  refine ⟨_, predict_mgca_uniform st cl sal ph om spp df z e d a s n m hn hm hdf
    hst hcl hsal hph hom hacase hscase ha hsg hbt hbs hbo hbp hbc, rfl,
    fun i j hi hj => ?_⟩
  exact ment_mkMat _ _ _ _ _ hi hj

theorem exbind_congr {α β : Type} (x : Except PyError α) (k k2 : α → Except PyError β)
    (h : ∀ a, k a = k2 a) : (x >>= k) = (x >>= k2) := by
  cases x with
  | error er => rfl
  | ok a => exact h a

theorem predictMu_pachy_ph (st cl sal ph1 ph2 om2 : List ℚ) (d : Draws) :
    predictMu st cl sal ph1 om2 "pachy" d = predictMu st cl sal ph2 om2 "pachy" d := by
  simp [predictMu]

/-- Claim C3 (amended): only for the canonical token `pachy` itself does
the ph covariate never influence the prediction: two calls differing only
in ph return identical results.  For the legacy aliases
`N. pachyderma sinistral` and `N. incompta` the pH term is added, because
`predict_mgca` compares the raw token to the string `pachy` before alias
normalization; see the counterexample. -/
theorem claimC3_amended (st cl sal ph1 ph2 om : List ℚ)
    (df : String → Except PyError Draws) (z : ℕ → ℕ → ℚ) (e : ℚ → ℚ) :
    predict_mgca st cl sal ph1 om "pachy" df z e
      = predict_mgca st cl sal ph2 om "pachy" df z e := by
  simp only [predict_mgca]
  exact exbind_congr _ _ _ fun d => by
    rw [predictMu_pachy_ph st cl sal ph1 ph2 _ d]

unseal Rat.mul Rat.inv Rat.add Rat.sub in
theorem claimC3_counterexample :
    predict_mgca [0] [0] [0] [0] [1] "N. incompta"
        (fun _ => .ok draws0) (fun _ _ => 0) id
      ≠ predict_mgca [0] [0] [0] [1] [1] "N. incompta"
        (fun _ => .ok draws0) (fun _ _ => 0) id := by
  decide


def pooled1 : PooledStore := ⟨[1], [1], [1], [1], [1], [1], [1]⟩

def spp1 : SppStore := ⟨[[1, 2, 3, 4]], [1], [1], [1], [1], [1], [[1, 2, 3, 4]]⟩

def spp2 : SppStore :=
  ⟨[[1, 1, 1, 1], [1, 1, 1, 1]], [1, 1], [1, 1], [1, 1], [1, 1], [1, 1],
    [[1, 1, 1, 1], [1, 1, 1, 1]]⟩

unseal Rat.mul Rat.inv Rat.add Rat.sub in
theorem claimC1_counterexample :
    predict_mgca [1, 2] [0, 0] [1, 1] [1, 1] [1, 1] "ruber"
        (get_draws pooled1 pooled1 spp2) (fun _ _ => 0) id
      = .error (.valueError bmsg) := by
  decide

theorem claimC1_witness :
    ∃ P : Prediction, predict_mgca [2, 3] [1, 0] [4] [5] [2, 2] "all"
        (get_draws pooled1 pooled1 spp1) (fun _ _ => 0) id = .ok P ∧ P.spp = "all" ∧
      ∀ i j, i < 2 → j < 1 →
        ment P.ensemble i j
          = id ([(1:ℚ)].getD j 0
            + (pooledDraws pooled1).beta_temp.getD j 0 * [(2:ℚ), 3].getD i 0
            + (pooledDraws pooled1).beta_omega.getD j 0 * ((bcastGet [(2:ℚ), 2] i) ^ 2)⁻¹
            + (pooledDraws pooled1).beta_salinity.getD j 0 * bcastGet [(4:ℚ)] i
            + (1 - (pooledDraws pooled1).beta_clean.getD j 0 * [(1:ℚ), 0].getD i 0)
            + (if "all" = "pachy" then 0
               else (pooledDraws pooled1).beta_ph.getD j 0 * bcastGet [(5:ℚ)] i)
            + [(1:ℚ)].getD j 0 * (fun _ _ => (0:ℚ)) i j) :=
  claimC1_amended [2, 3] [1, 0] [4] [5] [2, 2] "all" (get_draws pooled1 pooled1 spp1)
    (fun _ _ => 0) id (pooledDraws pooled1) [1] [1] 2 1
    (by decide) (by decide) rfl
    rfl rfl (Or.inr rfl) (Or.inr rfl) (Or.inl rfl)
    (Or.inl rfl) (Or.inl rfl) rfl rfl rfl rfl rfl rfl rfl

def PooledStore.uniform (P : PooledStore) (m : ℕ) : Prop :=
  P.alpha.length = m ∧ P.betaT.length = m ∧ P.betaS.length = m ∧ P.betaO.length = m ∧
    P.betaP.length = m ∧ P.betaC.length = m ∧ P.sigma.length = m

def SppStore.uniform (S : SppStore) (m : ℕ) : Prop :=
  S.alpha.length = m ∧ S.betaT.length = m ∧ S.betaS.length = m ∧ S.betaO.length = m ∧
    S.betaP.length = m ∧ S.betaC.length = m ∧ S.sigma.length = m

def Draws.uniform (d : Draws) (m : ℕ) : Prop :=
  ndLen d.alpha = m ∧ d.beta_temp.length = m ∧ d.beta_salinity.length = m ∧
    d.beta_omega.length = m ∧ d.beta_ph.length = m ∧ d.beta_clean.length = m ∧
    ndLen d.sigma = m

def speciesVocab : List String :=
  drawsMapKeys ++ ["G. bulloides", "N. pachyderma sinistral", "N. incompta",
    "G. ruber pink", "G. ruber white", "G. ruber", "G. sacculifer"]

theorem pooledDraws_uniform (P : PooledStore) (m : ℕ) (h : P.uniform m) :
    (pooledDraws P).uniform m := by
  obtain ⟨h1, h2, h3, h4, h5, h6, h7⟩ := h
  exact ⟨by simp [pooledDraws, ndLen, colOf, h1], h2, h3, h4, h5, h6,
    by simp [pooledDraws, ndLen, colOf, h7]⟩

theorem sppDraws_uniform (S : SppStore) (m : ℕ) (idx : ℕ) (h : S.uniform m) :
    (sppDraws S idx).uniform m := by
  obtain ⟨h1, h2, h3, h4, h5, h6, h7⟩ := h
  exact ⟨by simp [sppDraws, ndLen, colSlice, h1], h2, h3, h4, h5, h6,
    by simp [sppDraws, ndLen, colSlice, h7]⟩

/-- Claim C4 (amended): for every species token that is not canonical
after alias normalization, `get_draws` fails with an `AssertionError` (the
code has no `InvalidSpeciesError` class) whose message contains each of
the six canonical identifiers. -/
theorem claimC4_amended (P Ps : PooledStore) (S : SppStore) (s : String)
    (h : foramMap s ∉ drawsMapKeys) :
    get_draws P Ps S s = .error (.assertionError (invalidSpeciesMsg s)) ∧
      ∀ c ∈ drawsMapKeys, ∃ pre post, invalidSpeciesMsg s = pre ++ (c ++ post) := by
  constructor
  · simp only [drawsMapKeys, List.mem_cons, List.not_mem_nil, or_false, not_or] at h
    obtain ⟨h1, h2, h3, h4, h5, h6⟩ := h
    simp [get_draws, h1, h2, h3, h4, h5, h6]
  · intro c hc
    have hmsg : invalidSpeciesMsg s
        = ("\x22" ++ s) ++ ("\x22 must be one of draws_map " ++ keysRepr) := by
      unfold invalidSpeciesMsg
      rw [String.append_assoc]
    fin_cases hc
    · refine ⟨("\x22" ++ s) ++ "\x22 must be one of draws_map [\x27",
        "\x27, \x27all_sea\x27, \x27ruber\x27, \x27bulloides\x27, \x27sacculifer\x27, \x27pachy\x27]", ?_⟩
      rw [hmsg]
      simp only [keysRepr, String.append_assoc]
      congr 1
    · refine ⟨("\x22" ++ s) ++ "\x22 must be one of draws_map [\x27all\x27, \x27",
        "\x27, \x27ruber\x27, \x27bulloides\x27, \x27sacculifer\x27, \x27pachy\x27]", ?_⟩
      rw [hmsg]
      simp only [keysRepr, String.append_assoc]
      congr 1
    · refine ⟨("\x22" ++ s) ++ "\x22 must be one of draws_map [\x27all\x27, \x27all_sea\x27, \x27",
        "\x27, \x27bulloides\x27, \x27sacculifer\x27, \x27pachy\x27]", ?_⟩
      rw [hmsg]
      simp only [keysRepr, String.append_assoc]
      congr 1
    · refine ⟨("\x22" ++ s) ++ "\x22 must be one of draws_map [\x27all\x27, \x27all_sea\x27, \x27ruber\x27, \x27",
        "\x27, \x27sacculifer\x27, \x27pachy\x27]", ?_⟩
      rw [hmsg]
      simp only [keysRepr, String.append_assoc]
      congr 1
    · refine ⟨("\x22" ++ s) ++ "\x22 must be one of draws_map [\x27all\x27, \x27all_sea\x27, \x27ruber\x27, \x27bulloides\x27, \x27",
        "\x27, \x27pachy\x27]", ?_⟩
      rw [hmsg]
      simp only [keysRepr, String.append_assoc]
      congr 1
    · refine ⟨("\x22" ++ s) ++ "\x22 must be one of draws_map [\x27all\x27, \x27all_sea\x27, \x27ruber\x27, \x27bulloides\x27, \x27sacculifer\x27, \x27",
        "\x27]", ?_⟩
      rw [hmsg]
      simp only [keysRepr, String.append_assoc]
      congr 1

theorem claimC4_counterexample :
    isInvalidSpeciesError (get_draws pooled1 pooled1 spp1 "Zebra") = false ∧
      get_draws pooled1 pooled1 spp1 "Zebra"
        = .error (.assertionError (invalidSpeciesMsg "Zebra")) := by
  decide

theorem claimC4_witness :
    get_draws pooled1 pooled1 spp1 "Zebra"
        = .error (.assertionError (invalidSpeciesMsg "Zebra")) ∧
      ∀ c ∈ drawsMapKeys, ∃ pre post, invalidSpeciesMsg "Zebra" = pre ++ (c ++ post) :=
  claimC4_amended pooled1 pooled1 spp1 "Zebra" (by decide)

/-- Claim C7: for every token of the public vocabulary (six canonical
identifiers plus seven legacy aliases), draw resolution never raises, each
legacy alias returns exactly the same seven arrays as its canonical
identifier, and - for stores satisfying the spec's shared-draw-count
invariant - all seven returned arrays share one draw count. -/
theorem claimC7 (P Ps : PooledStore) (S : SppStore) (mP mPs mS : ℕ)
    (hP : P.uniform mP) (hPs : Ps.uniform mPs) (hS : S.uniform mS) :
    (∀ tok ∈ speciesVocab, ∃ dd mm, get_draws P Ps S tok = .ok dd ∧ dd.uniform mm) ∧
      get_draws P Ps S "G. bulloides" = get_draws P Ps S "bulloides" ∧
      get_draws P Ps S "N. pachyderma sinistral" = get_draws P Ps S "pachy" ∧
      get_draws P Ps S "N. incompta" = get_draws P Ps S "pachy" ∧
      get_draws P Ps S "G. ruber pink" = get_draws P Ps S "ruber" ∧
      get_draws P Ps S "G. ruber white" = get_draws P Ps S "ruber" ∧
      get_draws P Ps S "G. ruber" = get_draws P Ps S "ruber" ∧
      get_draws P Ps S "G. sacculifer" = get_draws P Ps S "sacculifer" := by
  refine ⟨?_, rfl, rfl, rfl, rfl, rfl, rfl, rfl⟩
  intro tok htok
  fin_cases htok
  · exact ⟨_, mP, rfl, pooledDraws_uniform P mP hP⟩
  · exact ⟨_, mPs, rfl, pooledDraws_uniform Ps mPs hPs⟩
  · exact ⟨_, mS, rfl, sppDraws_uniform S mS 0 hS⟩
  · exact ⟨_, mS, rfl, sppDraws_uniform S mS 1 hS⟩
  · exact ⟨_, mS, rfl, sppDraws_uniform S mS 2 hS⟩
  · exact ⟨_, mS, rfl, sppDraws_uniform S mS 3 hS⟩
  · exact ⟨_, mS, rfl, sppDraws_uniform S mS 1 hS⟩
  · exact ⟨_, mS, rfl, sppDraws_uniform S mS 3 hS⟩
  · exact ⟨_, mS, rfl, sppDraws_uniform S mS 3 hS⟩
  · exact ⟨_, mS, rfl, sppDraws_uniform S mS 0 hS⟩
  · exact ⟨_, mS, rfl, sppDraws_uniform S mS 0 hS⟩
  · exact ⟨_, mS, rfl, sppDraws_uniform S mS 0 hS⟩
  · exact ⟨_, mS, rfl, sppDraws_uniform S mS 2 hS⟩

theorem claimC7_witness :
    pooled1.uniform 1 ∧ spp1.uniform 1 ∧
      ∃ dd mm, get_draws pooled1 pooled1 spp1 "G. ruber" = .ok dd ∧ dd.uniform mm :=
  ⟨⟨rfl, rfl, rfl, rfl, rfl, rfl, rfl⟩, ⟨rfl, rfl, rfl, rfl, rfl, rfl, rfl⟩,
    (claimC7 pooled1 pooled1 spp1 1 1 1 ⟨rfl, rfl, rfl, rfl, rfl, rfl, rfl⟩
        ⟨rfl, rfl, rfl, rfl, rfl, rfl, rfl⟩ ⟨rfl, rfl, rfl, rfl, rfl, rfl, rfl⟩).1
      "G. ruber" (by decide)⟩


theorem getD_map_poly {α β : Type} (f : α → β) (v : List α) (i : ℕ) (db : β)
    (hi : i < v.length) : (v.map f).getD i db = f v[i] := by
  rw [List.getD_eq_getElem?_getD, List.getElem?_map, List.getElem?_eq_getElem hi]
  rfl

theorem roundHalfEven_bounds (x : ℚ) (B : ℕ) (h0 : 0 ≤ x) (hB : x ≤ (B : ℚ)) :
    0 ≤ roundHalfEven x ∧ roundHalfEven x ≤ (B : ℤ) := by
  unfold roundHalfEven
  split_ifs with hhalf heven
  · refine ⟨Int.floor_nonneg.mpr h0, ?_⟩
    have h1 : (⌊x⌋ : ℚ) ≤ (B : ℚ) := le_trans (Int.floor_le x) hB
    exact_mod_cast h1
  · constructor
    · have := Int.floor_nonneg.mpr h0
      omega
    · have hx : x = (⌊x⌋ : ℚ) + 1 / 2 := by linarith
      have h1 : (⌊x⌋ : ℚ) + 1 / 2 ≤ (B : ℚ) := by
        rw [← hx]
        exact hB
      have h2 : (⌊x⌋ : ℚ) < (B : ℚ) := by linarith
      have h3 : ⌊x⌋ < (B : ℤ) := by exact_mod_cast h2
      omega
  · constructor
    · refine Int.floor_nonneg.mpr ?_
      linarith
    · have h1 : x + 1 / 2 < ((B : ℤ) : ℚ) + 1 := by
        push_cast
        linarith
      have h2 : ⌊x + 1 / 2⌋ < (B : ℤ) + 1 := by
        refine Int.floor_lt.mpr ?_
        push_cast
        linarith
      omega

theorem pyPercentileNearest_mem (row : List ℚ) (qv : ℚ) (hrow : row ≠ [])
    (h0 : 0 ≤ qv) (h100 : qv ≤ 100) : pyPercentileNearest row qv ∈ row := by
  unfold pyPercentileNearest
  have hperm : List.Perm (row.insertionSort (· ≤ ·)) row := List.perm_insertionSort _ row
  have hlen : (row.insertionSort (· ≤ ·)).length = row.length := hperm.length_eq
  have hpos : 0 < row.length := List.length_pos.mpr hrow
  have hvi0 : 0 ≤ qv / 100 * ((row.length : ℚ) - 1) := by
    have h1 : (1 : ℚ) ≤ (row.length : ℚ) := by exact_mod_cast hpos
    have h2 : (0:ℚ) ≤ qv / 100 := by positivity
    nlinarith
  have hviB : qv / 100 * ((row.length : ℚ) - 1) ≤ ((row.length - 1 : ℕ) : ℚ) := by
    have h1 : (1 : ℚ) ≤ (row.length : ℚ) := by exact_mod_cast hpos
    have hc : ((row.length - 1 : ℕ) : ℚ) = (row.length : ℚ) - 1 := by
      push_cast [Nat.cast_sub hpos]
      ring
    rw [hc]
    have h2 : qv / 100 ≤ 1 := by
      rw [div_le_one (by norm_num)]
      exact h100
    nlinarith
  obtain ⟨hr0, hrB⟩ := roundHalfEven_bounds _ (row.length - 1) hvi0 hviB
  have hidx : (roundHalfEven (qv / 100 * ((row.length : ℚ) - 1))).toNat
      < (row.insertionSort (· ≤ ·)).length := by
    rw [hlen]
    omega
  rw [List.getD_eq_getElem _ _ hidx]
  exact hperm.subset (List.getElem_mem _)

/-- Claim C9: for a non-empty ensemble and percentile values in [0,100],
`Prediction.percentile` with the default nearest interpolation returns an
n-by-len(q) array in which every entry is exactly one of that
observation's ensemble members, never an interpolated value. -/
theorem claimC9 (p : Prediction) (q : List ℚ) (hq : q ≠ [])
    (hrows : ∀ r ∈ p.ensemble, r ≠ [])
    (hqv : ∀ v ∈ q, 0 ≤ v ∧ v ≤ 100) :
    (p.percentile q).length = p.ensemble.length ∧
      (∀ r ∈ p.percentile q, r.length = q.length) ∧
      ∀ i k, i < p.ensemble.length → k < q.length →
        ment (p.percentile q) i k ∈ p.ensemble.getD i [] := by
  have hcols : matCols (q.map fun qv => p.ensemble.map fun row =>
      pyPercentileNearest row qv) = p.ensemble.length := by
    obtain ⟨qv0, qtl, rfl⟩ : ∃ qv0 qtl, q = qv0 :: qtl := by
      cases q with
      | nil => simp at hq
      | cons a l => exact ⟨a, l, rfl⟩
    simp [matCols]
  simp only [Prediction.percentile, transpose2, hcols]
  refine ⟨by simp, ?_, ?_⟩
  · intro r hr
    simp only [List.mem_map] at hr
    obtain ⟨j, _, rfl⟩ := hr
    simp
  · intro i k hi hk
    unfold ment
    rw [getD_range_map _ _ _ _ hi]
    rw [getD_map_poly _ _ _ _ (by simpa using hk)]
    rw [List.getElem_map]
    rw [getD_map_poly _ _ _ _ hi]
    rw [List.getD_eq_getElem _ _ hi]
    refine pyPercentileNearest_mem _ _ ?_ ?_ ?_
    · exact hrows _ (List.getElem_mem hi)
    · exact (hqv _ (List.getElem_mem hk)).1
    · exact (hqv _ (List.getElem_mem hk)).2

unseal Rat.mul Rat.inv Rat.add Rat.sub in
theorem claimC9_witness :
    ((⟨[[3, 1, 2]], "all"⟩ : Prediction).percentile [50]).length
        = ([[3, 1, 2]] : Mat).length ∧
      (∀ r ∈ (⟨[[3, 1, 2]], "all"⟩ : Prediction).percentile [50],
        r.length = [(50 : ℚ)].length) ∧
      ∀ i k, i < ([[3, 1, 2]] : Mat).length → k < [(50 : ℚ)].length →
        ment ((⟨[[3, 1, 2]], "all"⟩ : Prediction).percentile [50]) i k
          ∈ ([[3, 1, 2]] : Mat).getD i [] :=
  claimC9 ⟨[[3, 1, 2]], "all"⟩ [50] (by decide) (by decide) (by decide)


def consultedLens (nst ncl nsal nph nom : ℕ) (spp : String) : List ℕ :=
  [nst, ncl, nsal, nom] ++ if spp = "pachy" then [] else [nph]

def broadcastable (lens : List ℕ) : Prop :=
  ∃ nn, ∀ L ∈ lens, L = nn ∨ L = 1

def onlyValueError {γ : Type} (x : Except PyError γ) : Prop :=
  ∀ er, x = .error er → er = .valueError bmsg

theorem onlyValueError_bind {α β : Type} (x : Except PyError α)
    (k : α → Except PyError β) (hx : onlyValueError x)
    (hk : ∀ a, onlyValueError (k a)) : onlyValueError (x >>= k) := by
  intro er h
  cases x with
  | error e1 =>
    rw [exbind_err] at h
    injection h with h2
    subst h2
    exact hx _ rfl
  | ok a =>
    rw [exbind_ok] at h
    exact hk a er h

theorem onlyValueError_bop (f : ℚ → ℚ → ℚ) (A B : Mat) : onlyValueError (bop f A B) :=
  fun er h => bop_error f A B er h

theorem onlyValueError_addNoise (mu sigmaT : Mat) (z : ℕ → ℕ → ℚ) :
    onlyValueError (addNoise mu sigmaT z) :=
  fun er h => addNoise_error mu sigmaT z er h

theorem onlyValueError_bopN (f : ℚ → ℚ → ℚ) (a : NdArr) (B : Mat) :
    onlyValueError (bopN f a B) := by
  cases a with
  | one v => exact onlyValueError_bop f (rowOf v) B
  | two A => exact onlyValueError_bop f A B

theorem bopN_ok_rows (f : ℚ → ℚ → ℚ) (a : NdArr) (B C : Mat)
    (h : bopN f a B = .ok C) : bshape (ndRows a) (matRows B) = some (matRows C) := by
  cases a with
  | one v => exact bop_ok_rows f (rowOf v) B C h
  | two A => exact bop_ok_rows f A B C h

theorem onlyValueError_pure {α : Type} (a : α) :
    onlyValueError (pure a : Except PyError α) := by
  intro er h
  exact absurd h (by simp [pure, Except.pure])

theorem predictMu_onlyValueError (st cl sal ph om2 : List ℚ) (spp : String) (d : Draws) :
    onlyValueError (predictMu st cl sal ph om2 spp d) := by
  unfold predictMu
  refine onlyValueError_bind _ _ (onlyValueError_bop _ _ _) fun M1 => ?_
  refine onlyValueError_bind _ _ (onlyValueError_bop _ _ _) fun t1 => ?_
  refine onlyValueError_bind _ _ (onlyValueError_bop _ _ _) fun t2 => ?_
  refine onlyValueError_bind _ _ (onlyValueError_bop _ _ _) fun t3 => ?_
  refine onlyValueError_bind _ _ (onlyValueError_bopN _ _ _) fun s1 => ?_
  refine onlyValueError_bind _ _ (onlyValueError_bop _ _ _) fun s2 => ?_
  refine onlyValueError_bind _ _ (onlyValueError_bop _ _ _) fun s3 => ?_
  refine onlyValueError_bind _ _ (onlyValueError_bop _ _ _) fun mu0 => ?_
  by_cases hsp : spp ≠ "pachy"
  · rw [if_pos hsp]
    exact onlyValueError_bind _ _ (onlyValueError_bop _ _ _) fun t4 =>
      onlyValueError_bop _ _ _
  · rw [if_neg hsp]
    exact onlyValueError_pure _

theorem matRows_emap (f : ℚ → ℚ) (A : Mat) : matRows (emap f A) = matRows A := by
  simp [matRows, emap]

theorem bop_row_col_rows (f : ℚ → ℚ → ℚ) (u v : List ℚ) (C : Mat)
    (h : bop f (rowOf u) (colOf v) = .ok C) : matRows C = v.length := by
  have hh := bop_ok_rows _ _ _ _ h
  rw [matRows_rowOf, matRows_colOf, bshape_one_left] at hh
  injection hh with hh
  exact hh.symm

theorem predictMu_ok_broadcastable (st cl sal ph om2 : List ℚ) (spp : String)
    (d : Draws) (M : Mat)
    (hst : 0 < st.length) (hcl : 0 < cl.length) (hsal : 0 < sal.length)
    (hph : 0 < ph.length) (hom : 0 < om2.length)
    (h : predictMu st cl sal ph om2 spp d = .ok M) :
    broadcastable (consultedLens st.length cl.length sal.length ph.length
      om2.length spp) := by
  unfold predictMu at h
  cases h1 : bop (· * ·) (rowOf d.beta_clean) (colOf cl) with
  | error e1 =>
    rw [h1, exbind_err] at h
    exact absurd h (by simp)
  | ok M1 =>
  rw [h1] at h
  simp only [exbind_ok] at h
  cases h2 : bop (· * ·) (rowOf d.beta_temp) (colOf st) with
  | error e2 =>
    rw [h2, exbind_err] at h
    exact absurd h (by simp)
  | ok T1 =>
  rw [h2] at h
  simp only [exbind_ok] at h
  cases h3 : bop (· * ·) (rowOf d.beta_omega) (colOf om2) with
  | error e3 =>
    rw [h3, exbind_err] at h
    exact absurd h (by simp)
  | ok T2 =>
  rw [h3] at h
  simp only [exbind_ok] at h
  cases h4 : bop (· * ·) (rowOf d.beta_salinity) (colOf sal) with
  | error e4 =>
    rw [h4, exbind_err] at h
    exact absurd h (by simp)
  | ok T3 =>
  rw [h4] at h
  simp only [exbind_ok] at h
  cases h5 : bopN (· + ·) (npTranspose (npTile d.alpha st.length)) T1 with
  | error e5 =>
    rw [h5, exbind_err] at h
    exact absurd h (by simp)
  | ok S1 =>
  rw [h5] at h
  simp only [exbind_ok] at h
  cases h6 : bop (· + ·) S1 T2 with
  | error e6 =>
    rw [h6, exbind_err] at h
    exact absurd h (by simp)
  | ok S2 =>
  rw [h6] at h
  simp only [exbind_ok] at h
  cases h7 : bop (· + ·) S2 T3 with
  | error e7 =>
    rw [h7, exbind_err] at h
    exact absurd h (by simp)
  | ok S3 =>
  rw [h7] at h
  simp only [exbind_ok] at h
  cases h8 : bop (· + ·) S3 (emap (fun x => 1 - x) M1) with
  | error e8 =>
    rw [h8, exbind_err] at h
    exact absurd h (by simp)
  | ok MU0 =>
  rw [h8] at h
  simp only [exbind_ok] at h
  have rM1 : matRows M1 = cl.length := bop_row_col_rows _ _ _ _ h1
  have rT1 : matRows T1 = st.length := bop_row_col_rows _ _ _ _ h2
  have rT2 : matRows T2 = om2.length := bop_row_col_rows _ _ _ _ h3
  have rT3 : matRows T3 = sal.length := bop_row_col_rows _ _ _ _ h4
  have f1 := bshape_some _ _ _ (bopN_ok_rows _ _ _ _ h5)
  have f2 := bshape_some _ _ _ (bop_ok_rows _ _ _ _ h6)
  have f3 := bshape_some _ _ _ (bop_ok_rows _ _ _ _ h7)
  have f4 := bshape_some _ _ _ (bop_ok_rows _ _ _ _ h8)
  rw [rT1] at f1
  rw [rT2] at f2
  rw [rT3] at f3
  rw [matRows_emap, rM1] at f4
  by_cases hsp : spp = "pachy"
  · refine ⟨matRows MU0, ?_⟩
    intro L hL
    simp [consultedLens, hsp] at hL
    rcases hL with rfl | rfl | rfl | rfl
    · omega
    · omega
    · omega
    · omega
  · rw [if_pos (by exact hsp : spp ≠ "pachy")] at h
    cases h9 : bop (· * ·) (rowOf d.beta_ph) (colOf ph) with
    | error e9 =>
      rw [h9, exbind_err] at h
      exact absurd h (by simp)
    | ok T4 =>
    rw [h9] at h
    simp only [exbind_ok] at h
    have rT4 : matRows T4 = ph.length := bop_row_col_rows _ _ _ _ h9
    have f5 := bshape_some _ _ _ (bop_ok_rows _ _ _ _ h)
    rw [rT4] at f5
    refine ⟨matRows M, ?_⟩
    intro L hL
    simp [consultedLens, hsp] at hL
    rcases hL with rfl | rfl | rfl | rfl | rfl
    · omega
    · omega
    · omega
    · omega
    · omega


/-- Claim C6 (amended): whenever the covariate arrays consulted on the
execution path (seatemp, cleaning, salinity, omega, and ph except for
species `pachy`) cannot be broadcast to a common observation count,
`predict_mgca` fails with numpy's `ValueError` (the code has no
`CovariateShapeError` class), raised before any ensemble is produced. -/
theorem claimC6_amended (st cl sal ph om : List ℚ) (spp : String)
    (df : String → Except PyError Draws) (z : ℕ → ℕ → ℚ) (e : ℚ → ℚ) (d : Draws)
    (hdf : df spp = .ok d)
    (hst : 0 < st.length) (hcl : 0 < cl.length) (hsal : 0 < sal.length)
    (hph : 0 < ph.length) (hom : 0 < om.length)
    (hnb : ¬ broadcastable (consultedLens st.length cl.length sal.length ph.length
      om.length spp)) :
    predict_mgca st cl sal ph om spp df z e = .error (.valueError bmsg) := by
  have hom2 : (om.map fun x => (x ^ 2)⁻¹).length = om.length := by simp
  cases hmu : predictMu st cl sal ph (om.map fun x => (x ^ 2)⁻¹) spp d with
  | ok M =>
    exfalso
    apply hnb
    have hb := predictMu_ok_broadcastable st cl sal ph _ spp d M hst hcl hsal hph
      (by rw [hom2]; exact hom) hmu
    rwa [hom2] at hb
  | error er =>
    have hval := predictMu_onlyValueError st cl sal ph _ spp d er hmu
    subst hval
    simp only [predict_mgca, hdf, exbind_ok, hmu, exbind_err]

unseal Rat.mul Rat.inv Rat.add Rat.sub in
theorem claimC6_counterexample :
    predict_mgca [1, 1, 1] [0, 0] [1, 1, 1] [1, 1, 1] [1, 1, 1] "all"
        (fun _ => .ok draws1) (fun _ _ => 0) id = .error (.valueError bmsg) ∧
      isCovariateShapeError (predict_mgca [1, 1, 1] [0, 0] [1, 1, 1] [1, 1, 1] [1, 1, 1]
        "all" (fun _ => .ok draws1) (fun _ _ => 0) id) = false := by
  decide

theorem claimC6_witness :
    predict_mgca [1, 1, 1] [0, 0, 0, 0] [1, 1, 1] [1, 1, 1] [1, 1, 1] "all"
        (fun _ => .ok draws1) (fun _ _ => 0) id = .error (.valueError bmsg) := by
  refine claimC6_amended [1, 1, 1] [0, 0, 0, 0] [1, 1, 1] [1, 1, 1] [1, 1, 1] "all"
    (fun _ => .ok draws1) (fun _ _ => 0) id draws1 rfl
    (by decide) (by decide) (by decide) (by decide) (by decide) ?_
  rintro ⟨nn, hfn⟩
  have h3 := hfn 3 (by simp [consultedLens])
  have h4 := hfn 4 (by simp [consultedLens])
  omega

end Baymag
